import Mathlib

/-!
Shallow embedding of `src/buffer.rs`: a fixed-capacity buffer `StaticBuffer<T>`
with operations `add`, `consume`, `used`, `capacity`.  Rust methods that take
`&mut self` are modelled as functions returning the result value paired with
the updated buffer state.
-/

/-- Rust constant `const BUFFER_SIZE: usize = 512;`. -/
def BUFFER_SIZE : Nat := 512

/-- Rust struct `pub struct BufferFullError<T>(T);` — the rejected element is carried in the error. -/
structure BufferFullError (α : Type) where
  element : α
deriving DecidableEq

/-- Rust struct `pub struct StaticBuffer<T> { elements: [T; BUFFER_SIZE], next: usize }`.
The backing array is modelled as a `List α`; well-formed states have length
`BUFFER_SIZE` (see `StaticBuffer.WF`). -/
structure StaticBuffer (α : Type) where
  elements : List α
  next : Nat
deriving DecidableEq

namespace StaticBuffer

/-- Constructor `StaticBuffer::new()`: all slots default-initialised, `next = 0`. -/
def new (α : Type) [Inhabited α] : StaticBuffer α :=
  { elements := List.replicate BUFFER_SIZE default, next := 0 }

/-- Method `fn add(&mut self, element: T) -> Result<(), BufferFullError<T>>`:
if `next == BUFFER_SIZE` fail with the element, else write `elements[next]`,
increment `next`, succeed.  Returns the result together with the new state. -/
def add (b : StaticBuffer α) (element : α) :
    Except (BufferFullError α) Unit × StaticBuffer α :=
  if b.next = BUFFER_SIZE then
    (Except.error ⟨element⟩, b)
  else
    (Except.ok (), { elements := b.elements.set b.next element, next := b.next + 1 })

/-- Method `fn consume(&mut self) -> Option<Vec<T>>`:
if `next == 0` return `None`; else copy out `elements[..next]` and reset
`next` to `0`.  Returns the result together with the new state. -/
def consume (b : StaticBuffer α) : Option (List α) × StaticBuffer α :=
  if b.next = 0 then
    (none, b)
  else
    (some (b.elements.take b.next), { b with next := 0 })

/-- Method `fn used(&self) -> usize { self.next }`. -/
def used (b : StaticBuffer α) : Nat := b.next

/-- Method `fn capacity(&self) -> usize { BUFFER_SIZE }`. -/
def capacity (_ : StaticBuffer α) : Nat := BUFFER_SIZE

/-- Well-formedness of a buffer state: the backing store has exactly
`BUFFER_SIZE` slots and the cursor is in bounds, as guaranteed by the Rust
type `[T; BUFFER_SIZE]` and the reachable values of `next`. -/
def WF (b : StaticBuffer α) : Prop :=
  b.elements.length = BUFFER_SIZE ∧ b.next ≤ BUFFER_SIZE

/-- Run a sequence of `add` calls, threading the state (results discarded). -/
def addAll (b : StaticBuffer α) : List α → StaticBuffer α
  | [] => b
  | e :: es => ((b.add e).2).addAll es

/-- The success/failure outcome of each call in a sequence of `add` calls. -/
def addResults (b : StaticBuffer α) : List α → List Bool
  | [] => []
  | e :: es => ((b.add e).1).isOk :: ((b.add e).2).addResults es

/-- Buffer states reachable from `StaticBuffer::new()` by `add` and `consume`. -/
inductive Reachable (α : Type) [Inhabited α] : StaticBuffer α → Prop
  | init : Reachable α (new α)
  | addStep (b : StaticBuffer α) (e : α) : Reachable α b → Reachable α (b.add e).2
  | consumeStep (b : StaticBuffer α) : Reachable α b → Reachable α (b.consume).2

end StaticBuffer

/-- Setting a slot then taking one element past it splits as take-append. -/
theorem take_succ_set (l : List β) (n : Nat) (a : β) (h : n < l.length) :
    (l.set n a).take (n + 1) = l.take n ++ [a] := by
  induction l generalizing n with
  | nil => simp at h
  | cons x xs ih =>
    cases n with
    | zero => simp
    | succ m =>
      simp only [List.set, List.take, List.cons_append, List.cons.injEq, true_and]
      exact ih m (by simpa using h)

namespace StaticBuffer

/-- The freshly constructed buffer is well-formed. -/
theorem new_WF (α : Type) [Inhabited α] : (new α).WF := by
  constructor
  · simp [new]
  · simp [new]

/-- When the buffer is not full, `add` succeeds and performs the slot write
and cursor increment. -/
theorem add_eq_of_lt (b : StaticBuffer α) (e : α) (h : b.next < BUFFER_SIZE) :
    b.add e = (Except.ok (),
      { elements := b.elements.set b.next e, next := b.next + 1 }) := by
  simp [add, Nat.ne_of_lt h]

/-- Master lemma: running `k` adds from a well-formed state with room for all
of them succeeds at every step, advances the cursor by `k`, and writes the
elements in order after the existing prefix. -/
theorem addAll_spec (es : List α) : ∀ b : StaticBuffer α, b.WF →
    b.next + es.length ≤ BUFFER_SIZE →
    (b.addAll es).next = b.next + es.length ∧
    (b.addAll es).elements.take (b.next + es.length)
      = b.elements.take b.next ++ es ∧
    (b.addAll es).WF ∧
    b.addResults es = List.replicate es.length true := by
  induction es with
  | nil =>
    intro b hwf _
    simpa [addAll, addResults] using hwf
  | cons e es ih =>
    intro b hwf hroom
    have hlt : b.next < BUFFER_SIZE := by
      have := hroom
      simp [List.length_cons] at this
      omega
    have hlen : b.next < b.elements.length := by
      rw [hwf.1]; exact hlt
    have hadd := add_eq_of_lt b e hlt
    set b' : StaticBuffer α :=
      { elements := b.elements.set b.next e, next := b.next + 1 } with hb'
    have hwf' : b'.WF := by
      constructor
      · simp [hb', List.length_set, hwf.1]
      · simp [hb']; omega
    have hroom' : b'.next + es.length ≤ BUFFER_SIZE := by
      simp [hb', List.length_cons] at hroom ⊢; omega
    obtain ⟨ihn, ihtake, ihwf, ihres⟩ := ih b' hwf' hroom'
    have hstep : b.addAll (e :: es) = b'.addAll es := by
      simp [addAll, hadd]
    refine ⟨?_, ?_, ?_, ?_⟩
    · rw [hstep, ihn]; simp [hb', List.length_cons]; omega
    · rw [hstep]
      have harith : b.next + (e :: es).length = b'.next + es.length := by
        simp [hb', List.length_cons]; omega
      rw [harith, ihtake]
      have htake : b'.elements.take b'.next = b.elements.take b.next ++ [e] := by
        simp only [hb']
        exact take_succ_set b.elements b.next e hlen
      rw [htake]
      simp
    · rw [hstep]; exact ihwf
    · simp [addResults, hadd, List.replicate]
      exact ⟨rfl, ihres⟩

/-- The state after `consume` has cursor `0` and the same backing store. -/
theorem consume_snd (b : StaticBuffer α) :
    (b.consume).2 = { b with next := 0 } := by
  by_cases h : b.next = 0
  · simp [consume, h]
    cases b
    simp_all
  · simp [consume, h]

end StaticBuffer

/-- Concrete full buffer over `Nat`, used to instantiate theorems. -/
def fullBufN : StaticBuffer Nat :=
  { elements := List.replicate BUFFER_SIZE 0, next := BUFFER_SIZE }

/-- Concrete one-element buffer over `Nat`, used to instantiate theorems. -/
def oneBufN : StaticBuffer Nat := ((StaticBuffer.new Nat).add 5).2

/-- The concrete full buffer is well-formed. -/
theorem fullBufN_WF : fullBufN.WF := by
  constructor <;> simp [fullBufN]

/-- The concrete one-element buffer is well-formed. -/
theorem oneBufN_WF : oneBufN.WF := by
  rw [oneBufN, StaticBuffer.add_eq_of_lt _ _ (by decide)]
  constructor
  · simp [StaticBuffer.new]
  · decide

/-- C1: on a buffer built by adding the elements `es` (with `es.length = k > 0`)
to an empty well-formed buffer, `consume` returns `some` sequence of exactly
the `k` elements previously added, in the order they were added, and
immediately after the call `used() = 0`. -/
theorem consume_returns_added_in_order (c : StaticBuffer α) (es : List α)
    (hwf : c.WF) (hempty : c.used = 0) (hne : es ≠ [])
    (hlen : es.length ≤ c.capacity) :
    (c.addAll es).used = es.length ∧
    ((c.addAll es).consume).1 = some es ∧
    ((c.addAll es).consume).2.used = 0 := by
  have h0 : c.next = 0 := hempty
  obtain ⟨hn, htake, -, -⟩ :=
    StaticBuffer.addAll_spec es c hwf (by simpa [h0, StaticBuffer.capacity] using hlen)
  rw [h0] at hn htake
  simp only [Nat.zero_add, List.take_zero, List.nil_append] at hn htake
  have hnz : (c.addAll es).next ≠ 0 := by
    rw [hn]
    simpa [List.length_eq_zero] using hne
  refine ⟨hn, ?_, ?_⟩
  · simp only [StaticBuffer.consume, if_neg hnz]
    rw [hn, htake]
  · simp [StaticBuffer.consume, hnz, StaticBuffer.used]

/-- Witness for C1 at a concrete input: add `[3, 1, 2]` to a fresh buffer. -/
theorem consume_returns_added_in_order_witness :
    (StaticBuffer.new Nat).WF ∧ (StaticBuffer.new Nat).used = 0 ∧
    ([3, 1, 2] : List Nat) ≠ [] ∧
    ([3, 1, 2] : List Nat).length ≤ (StaticBuffer.new Nat).capacity ∧
    (((StaticBuffer.new Nat).addAll [3, 1, 2]).used = ([3, 1, 2] : List Nat).length ∧
     (((StaticBuffer.new Nat).addAll [3, 1, 2]).consume).1 = some [3, 1, 2] ∧
     (((StaticBuffer.new Nat).addAll [3, 1, 2]).consume).2.used = 0) :=
  ⟨StaticBuffer.new_WF Nat, rfl, by decide, by decide,
    consume_returns_added_in_order (StaticBuffer.new Nat) [3, 1, 2]
      (StaticBuffer.new_WF Nat) rfl (by decide) (by decide)⟩

/-- C2: on a buffer with `used() = capacity()`, `add e` fails with
`BufferFullError` carrying exactly the attempted element `e`, and the failed
call leaves the entire buffer state (hence `used()`) unchanged. -/
theorem add_on_full_fails_unchanged (b : StaticBuffer α) (e : α)
    (hfull : b.used = b.capacity) :
    (b.add e).1 = Except.error ⟨e⟩ ∧ (b.add e).2 = b := by
  have h : b.next = BUFFER_SIZE := hfull
  simp [StaticBuffer.add, h]

/-- Witness for C2 at a concrete input: a full buffer rejects `7`. -/
theorem add_on_full_fails_unchanged_witness :
    fullBufN.used = fullBufN.capacity ∧
    ((fullBufN.add 7).1 = Except.error ⟨7⟩ ∧ (fullBufN.add 7).2 = fullBufN) :=
  ⟨rfl, add_on_full_fails_unchanged fullBufN 7 rfl⟩

/-- C3: on a well-formed buffer with `used() < capacity()`, `add e` succeeds,
stores `e` at position `next` (the pre-call `used()` value), and increases
`used()` by exactly `1`. -/
theorem add_not_full_succeeds (b : StaticBuffer α) (e : α) (hwf : b.WF)
    (h : b.used < b.capacity) :
    (b.add e).1 = Except.ok () ∧
    (b.add e).2.used = b.used + 1 ∧
    ((b.add e).2).elements[b.used]? = some e := by
  have hlt : b.next < BUFFER_SIZE := h
  have hadd := StaticBuffer.add_eq_of_lt b e hlt
  refine ⟨by rw [hadd], by rw [hadd]; rfl, ?_⟩
  rw [hadd]
  exact List.getElem?_set_self (by rw [hwf.1]; exact hlt)

/-- Witness for C3 at a concrete input: a fresh buffer accepts `9` at slot `0`. -/
theorem add_not_full_succeeds_witness :
    (StaticBuffer.new Nat).WF ∧
    (StaticBuffer.new Nat).used < (StaticBuffer.new Nat).capacity ∧
    (((StaticBuffer.new Nat).add 9).1 = Except.ok () ∧
     ((StaticBuffer.new Nat).add 9).2.used = (StaticBuffer.new Nat).used + 1 ∧
     (((StaticBuffer.new Nat).add 9).2).elements[(StaticBuffer.new Nat).used]? = some 9) :=
  ⟨StaticBuffer.new_WF Nat, by decide,
    add_not_full_succeeds (StaticBuffer.new Nat) 9 (StaticBuffer.new_WF Nat) (by decide)⟩

/-- C4: for every sequence of `k ≤ capacity()` add calls starting from an
empty well-formed buffer with no interleaved consume, every one of the `k`
calls succeeds, and after the `k`-th call `used() = k`. -/
theorem adds_within_capacity_all_succeed (c : StaticBuffer α) (es : List α)
    (hwf : c.WF) (hempty : c.used = 0) (hlen : es.length ≤ c.capacity) :
    c.addResults es = List.replicate es.length true ∧
    (c.addAll es).used = es.length := by
  have h0 : c.next = 0 := hempty
  obtain ⟨hn, -, -, hres⟩ :=
    StaticBuffer.addAll_spec es c hwf (by simpa [h0, StaticBuffer.capacity] using hlen)
  refine ⟨hres, ?_⟩
  rw [StaticBuffer.used, hn, h0, Nat.zero_add]

/-- Witness for C4 at a concrete input: three adds on a fresh buffer. -/
theorem adds_within_capacity_all_succeed_witness :
    (StaticBuffer.new Nat).WF ∧ (StaticBuffer.new Nat).used = 0 ∧
    ([4, 5, 6] : List Nat).length ≤ (StaticBuffer.new Nat).capacity ∧
    ((StaticBuffer.new Nat).addResults [4, 5, 6]
        = List.replicate ([4, 5, 6] : List Nat).length true ∧
     ((StaticBuffer.new Nat).addAll [4, 5, 6]).used = ([4, 5, 6] : List Nat).length) :=
  ⟨StaticBuffer.new_WF Nat, rfl, by decide,
    adds_within_capacity_all_succeed (StaticBuffer.new Nat) [4, 5, 6]
      (StaticBuffer.new_WF Nat) rfl (by decide)⟩

/-- C5: on a buffer with `used() = 0`, `consume` returns `none` (the no-data
case, distinguished from `some` without inspecting `used()`) and leaves the
buffer state unchanged. -/
theorem consume_empty_no_data (b : StaticBuffer α) (h : b.used = 0) :
    b.consume = (none, b) := by
  have h0 : b.next = 0 := h
  simp [StaticBuffer.consume, h0]

/-- Witness for C5 at a concrete input: a fresh buffer. -/
theorem consume_empty_no_data_witness :
    (StaticBuffer.new Nat).used = 0 ∧
    (StaticBuffer.new Nat).consume = (none, StaticBuffer.new Nat) :=
  ⟨rfl, consume_empty_no_data (StaticBuffer.new Nat) rfl⟩

/-- C6: after any `consume` call on a well-formed buffer, every sequence of up
to `capacity()` add calls from the post-consume state all succeed, and the
cursor again equals the number of adds — the buffer is fully reusable with no
terminal state. -/
theorem consume_makes_reusable (b : StaticBuffer α) (es : List α) (hwf : b.WF)
    (hlen : es.length ≤ b.capacity) :
    ((b.consume).2).addResults es = List.replicate es.length true ∧
    (((b.consume).2).addAll es).used = es.length := by
  rw [StaticBuffer.consume_snd]
  obtain ⟨hn, -, -, hres⟩ :=
    StaticBuffer.addAll_spec es { b with next := 0 }
      ⟨hwf.1, Nat.zero_le _⟩
      (by simpa [StaticBuffer.capacity] using hlen)
  exact ⟨hres, by rw [StaticBuffer.used, hn, Nat.zero_add]⟩

/-- Witness for C6 at a concrete input: consume a full buffer, then refill one slot. -/
theorem consume_makes_reusable_witness :
    fullBufN.WF ∧ ([8] : List Nat).length ≤ fullBufN.capacity ∧
    (((fullBufN.consume).2).addResults [8]
        = List.replicate ([8] : List Nat).length true ∧
     (((fullBufN.consume).2).addAll [8]).used = ([8] : List Nat).length) :=
  ⟨fullBufN_WF, by decide, consume_makes_reusable fullBufN [8] fullBufN_WF (by decide)⟩

/-- C7: every buffer reachable from the initial empty state by `add` and
`consume` calls satisfies `used() ≤ capacity()` (with `0 ≤ used()` trivially),
and `capacity()` is the same constant `BUFFER_SIZE` throughout. -/
theorem reachable_invariant [Inhabited α] (b : StaticBuffer α)
    (h : StaticBuffer.Reachable α b) :
    b.used ≤ b.capacity ∧ b.capacity = BUFFER_SIZE := by
  refine ⟨?_, rfl⟩
  induction h with
  | init => exact Nat.zero_le _
  | addStep c e _ ih =>
    by_cases hc : c.next = BUFFER_SIZE
    · simpa [StaticBuffer.add, hc] using ih
    · have : c.next < BUFFER_SIZE := Nat.lt_of_le_of_ne ih hc
      simp only [StaticBuffer.add, if_neg hc]
      exact this
  | consumeStep c _ ih =>
    rw [StaticBuffer.consume_snd]
    exact Nat.zero_le _

/-- Witness for C7 at a concrete input: the initial buffer is reachable. -/
theorem reachable_invariant_witness :
    StaticBuffer.Reachable Nat (StaticBuffer.new Nat) ∧
    ((StaticBuffer.new Nat).used ≤ (StaticBuffer.new Nat).capacity ∧
     (StaticBuffer.new Nat).capacity = BUFFER_SIZE) :=
  ⟨StaticBuffer.Reachable.init,
    reachable_invariant (StaticBuffer.new Nat) StaticBuffer.Reachable.init⟩

/-- C8: calling `consume` twice in a row with no intervening `add` returns the
stored data on the first call (when any existed) and `none` on the second. -/
theorem consume_twice_second_empty (b : StaticBuffer α) :
    (((b.consume).2).consume).1 = none ∧
    (0 < b.used → ((b.consume).1).isSome = true) := by
  constructor
  · rw [StaticBuffer.consume_snd]
    simp [StaticBuffer.consume]
  · intro h
    have hnz : b.next ≠ 0 := Nat.pos_iff_ne_zero.mp h
    simp [StaticBuffer.consume, hnz]

/-- Witness for C8 at a concrete input: a one-element buffer. -/
theorem consume_twice_second_empty_witness :
    0 < oneBufN.used ∧
    (((oneBufN.consume).2).consume).1 = none ∧
    ((oneBufN.consume).1).isSome = true :=
  ⟨by decide, (consume_twice_second_empty oneBufN).1,
    (consume_twice_second_empty oneBufN).2 (by decide)⟩

/-- C9: `consume` modifies only the cursor (resetting it to `0`) and leaves
every slot of the backing `elements` store unchanged — storage is not cleared,
so previously stored values remain until overwritten by future adds. -/
theorem consume_preserves_storage (b : StaticBuffer α) :
    ((b.consume).2).elements = b.elements ∧ ((b.consume).2).next = 0 := by
  rw [StaticBuffer.consume_snd]
  exact ⟨rfl, rfl⟩

/-- C10: a successful `add e` on a well-formed buffer with
`next = n < capacity()` writes only the slot at index `n`; every backing slot
at any other index holds the same value after the call as before it. -/
theorem add_writes_only_next_slot (b : StaticBuffer α) (e : α)
    (h : b.used < b.capacity) (i : Nat) (hi : i ≠ b.next) :
    ((b.add e).2).elements[i]? = b.elements[i]? := by
  have hlt : b.next < BUFFER_SIZE := h
  rw [StaticBuffer.add_eq_of_lt b e hlt]
  exact List.getElem?_set_ne (fun heq => hi heq.symm)

/-- Witness for C10 at a concrete input: adding to a one-element buffer leaves
slot `0` intact. -/
theorem add_writes_only_next_slot_witness :
    oneBufN.used < oneBufN.capacity ∧ (0 : Nat) ≠ oneBufN.next ∧
    ((oneBufN.add 11).2).elements[0]? = oneBufN.elements[0]? :=
  ⟨by decide, by decide,
   add_writes_only_next_slot oneBufN 11 (by decide) 0 (by decide)⟩
